import Mathlib

/-!
Verification of the favicon resolution and caching engine of the
bookmark-workspace browser extension.

The definitions below are a shallow embedding of
`src/pages/new-tab/src/lib/favicon-resolver.ts` and of the favicon driver
helpers (`getFaviconSrc`, `onFaviconError`) in `src/pages/new-tab/src/NewTab.tsx`.

Modelling conventions:
* The persisted cache (a JS object serialized to localStorage) is modelled as
  an insertion-ordered association list `CacheMap` with JS-object update
  semantics (`objGet`, `objSet`, `objDelete`): updating an existing key keeps
  its position, a new key is appended at the end, which is exactly the
  enumeration order `Object.entries` exposes.
* Platform functions that the code calls but does not define (the WHATWG URL
  hostname parser behind `new URL(url).hostname`, `encodeURIComponent`, the
  build-time environment variable `VITE_FAVICON_PROVIDER`) are parameters of
  the embedding, collected in `JsEnv`; every theorem is proved for an
  arbitrary such environment.
* `Date.now()` is an explicit `now : Nat` argument (milliseconds).
  `Date.now() - entry.at` is computed in `Int`, as in JS, so that a future
  timestamp does not underflow.
* `Array.prototype.sort` with the comparator `(a, b) => a[1].at - b[1].at` is a
  stable ascending sort by `at`; it is modelled by `List.insertionSort` with
  the relation `a.at ≤ b.at`, which is stable in the same sense.
* JS string truthiness (`!url`, `if (cached)`, `a || b`) is modelled by
  comparison with the empty string; `undefined` list indexing is modelled by
  `List.getD _ _ ""`, sound here because every generated candidate is a
  non-empty string (proved below).
-/

namespace BW

/-! ## Constants (favicon-resolver.ts lines 1-5) -/

def SUCCESS_TTL_MS : Nat := 7 * 24 * 60 * 60 * 1000

def FAILURE_TTL_MS : Nat := 10 * 60 * 1000

def MAX_ENTRIES : Nat := 500

def DEFAULT_SIZE : Nat := 32

/-! ## Provider configuration (lines 7-15) -/

inductive FaviconProvider where
  | chain
  | raycast
  | google
  | duckduckgo
  | direct
deriving DecidableEq

/-- JS `String.prototype.toLowerCase`, character by character (ASCII-faithful). -/
def jsToLower (s : String) : String := String.mk (s.data.map Char.toLower)

/-- The expression `String(import.meta.env.VITE_FAVICON_PROVIDER || "chain").toLowerCase()`:
an absent or empty environment value falls back to the string `chain`. -/
def getProviderRaw (envRaw : Option String) : String :=
  jsToLower (match envRaw with
    | none => "chain"
    | some s => if s = "" then "chain" else s)

/-- Function `getProvider` (lines 9-15): recognized values pass through, anything else
falls back to `chain`. -/
def getProvider (envRaw : Option String) : FaviconProvider :=
  let raw := getProviderRaw envRaw
  if raw = "raycast" then .raycast
  else if raw = "google" then .google
  else if raw = "duckduckgo" then .duckduckgo
  else if raw = "direct" then .direct
  else .chain

/-! ## Cache data model (lines 17-24) -/

structure CacheValue where
  src : String
  «at» : Nat
  ok : Bool
  provider : Option String
deriving DecidableEq

/-- A JS object `Record(string, CacheValue)` as an insertion-ordered
association list. -/
abbrev CacheMap := List (String × CacheValue)

/-- Read `cache[k]` — first (in a real JS object: only) binding of `k`. -/
def objGet : CacheMap → String → Option CacheValue
  | [], _ => none
  | p :: s, k => if p.1 = k then some p.2 else objGet s k

/-- Assignment `cache[k] = v` — replace in place if present, else append at the end. -/
def objSet : CacheMap → String → CacheValue → CacheMap
  | [], k, v => [(k, v)]
  | p :: s, k, v => if p.1 = k then (k, v) :: s else p :: objSet s k v

/-- Statement `delete cache[k]`. -/
def objDelete : CacheMap → String → CacheMap
  | [], _ => []
  | p :: s, k => if p.1 = k then objDelete s k else p :: objDelete s k

/-- Number of bindings of `k` (1 for keys of a real JS object, used to state
the no-duplicates conclusions). -/
def keyCount (s : CacheMap) (k : String) : Nat :=
  (s.filter (fun p => p.1 = k)).length

/-! ## Environment of platform functions -/

structure JsEnv where
  parseHost : String → Option String
  encodeURIComponent : String → String
  providerEnv : Option String

/-! ## pruneCache (lines 41-47) -/

/-- Comparator `(a, b) => (a[1].at || 0) - (b[1].at || 0)` (ascending by
write time; `at || 0` is the identity on a `Nat` timestamp). -/
def byAt (a b : String × CacheValue) : Prop := a.2.«at» ≤ b.2.«at»

instance : DecidableRel byAt := fun a b => Nat.decLe a.2.«at» b.2.«at»

/-- Function `pruneCache`: if over `MAX_ENTRIES`, stable-sort ascending by `at` and
keep the most recent `MAX_ENTRIES` entries (`slice(length - MAX_ENTRIES)`). -/
def pruneCache (s : CacheMap) : CacheMap :=
  if s.length ≤ MAX_ENTRIES then s
  else (List.insertionSort byAt s).drop (s.length - MAX_ENTRIES)

/-! ## isExpired (lines 49-52) -/

def isExpired (now : Nat) (e : CacheValue) : Bool :=
  let ttl : Nat := if e.ok then SUCCESS_TTL_MS else FAILURE_TTL_MS
  decide ((now : Int) - (e.«at» : Int) > (ttl : Int))

/-! ## getDomain (lines 54-61) -/

/-- The call `hostname.replace(regex www dot at start, "")`: strip one leading `www.`. -/
def stripWww (h : String) : String :=
  if h.data.take 4 = "www.".data then String.mk (h.data.drop 4) else h

/-- Function `getDomain` (lines 54-61): absent or empty url gives `""`; a hostname the
platform parser cannot produce (`new URL` throwing) gives `""`; otherwise the
hostname with a leading `www.` stripped. -/
def getDomain (E : JsEnv) (url : Option String) : String :=
  match url with
  | none => ""
  | some u =>
    if u = "" then ""
    else
      match E.parseHost u with
      | none => ""
      | some h => stripWww h

/-! ## getFaviconCandidates (lines 63-80) -/

def getFaviconCandidates (E : JsEnv) (url : Option String) : List String :=
  match url with
  | none => []
  | some u =>
    if u = "" then []
    else
      let domain := getDomain E (some u)
      if domain = "" then []
      else
        let encoded := E.encodeURIComponent domain
        let direct := ["https://" ++ domain ++ "/favicon.ico",
                       "https://" ++ domain ++ "/apple-touch-icon.png"]
        let google := ["https://www.google.com/s2/favicons?domain=" ++ encoded
                        ++ "&sz=" ++ toString DEFAULT_SIZE]
        let duck := ["https://icons.duckduckgo.com/ip3/" ++ encoded ++ ".ico"]
        let raycast := ["https://api.ray.so/favicon?url=" ++ encoded
                        ++ "&size=" ++ toString DEFAULT_SIZE]
        match getProvider E.providerEnv with
        | .direct => direct
        | .google => google
        | .duckduckgo => duck
        | .raycast => raycast
        | .chain => direct ++ google ++ duck ++ raycast

/-! ## Cache operations (lines 82-128); the store read from and written back
to localStorage is threaded explicitly -/

def getCachedFavicon (E : JsEnv) (now : Nat) (url : Option String)
    (s : CacheMap) : Option String × CacheMap :=
  let domain := getDomain E url
  if domain = "" then (none, s)
  else
    match objGet s domain with
    | none => (none, s)
    | some entry =>
      if isExpired now entry then (none, objDelete s domain)
      else (if entry.ok then some entry.src else none, s)

def isNegativeFaviconCached (E : JsEnv) (now : Nat) (url : Option String)
    (s : CacheMap) : Bool × CacheMap :=
  let domain := getDomain E url
  if domain = "" then (false, s)
  else
    match objGet s domain with
    | none => (false, s)
    | some entry =>
      if isExpired now entry then (false, objDelete s domain)
      else (!entry.ok, s)

def rememberFavicon (E : JsEnv) (now : Nat) (url : Option String)
    (src provider : String) (s : CacheMap) : CacheMap :=
  let domain := getDomain E url
  if domain = "" ∨ src = "" then s
  else pruneCache (objSet s domain ⟨src, now, true, some provider⟩)

def rememberFaviconFailure (E : JsEnv) (now : Nat) (url : Option String)
    (provider : String) (s : CacheMap) : CacheMap :=
  let domain := getDomain E url
  if domain = "" then s
  else pruneCache (objSet s domain ⟨"", now, false, some provider⟩)

/-! ## Persistence read path (lines 26-35); JSON.parse is a platform
parameter, `none` standing for a parse exception -/

def safeParse (parseJson : String → Option CacheMap) (json : Option String) :
    CacheMap :=
  match json with
  | none => []
  | some j => if j = "" then [] else (parseJson j).getD []

def readCache (parseJson : String → Option CacheMap) (blob : Option String) :
    CacheMap :=
  safeParse parseJson blob

/-! ## Driver (NewTab.tsx lines 439-459) -/

structure Link where
  id : String
  url : Option String

/-- The in-memory per-link attempt counters `faviconIndexById`. -/
abbrev IdxMap := List (String × Nat)

def idxGet : IdxMap → String → Option Nat
  | [], _ => none
  | p :: m, k => if p.1 = k then some p.2 else idxGet m k

def idxSet : IdxMap → String → Nat → IdxMap
  | [], k, v => [(k, v)]
  | p :: m, k, v => if p.1 = k then (k, v) :: m else p :: idxSet m k v

/-- JS `a || b` on strings (with `undefined` encoded as `""`). -/
def jsOrS (a b : String) : String := if a = "" then b else a

/-- Function `getFaviconSrc` (NewTab.tsx lines 439-445). The returned pair is the
rendered source string and the store after the embedded cache read (which may
lazily delete an expired entry). -/
def getFaviconSrc (E : JsEnv) (now : Nat) (link : Link) (m : IdxMap)
    (s : CacheMap) : String × CacheMap :=
  let candidates := getFaviconCandidates E link.url
  let res := getCachedFavicon E now link.url s
  let index := (idxGet m link.id).getD 0
  match res.1 with
  | some c =>
    if c = "" then (jsOrS (candidates.getD index "") (jsOrS (candidates.getD 0 "") ""), res.2)
    else (c, res.2)
  | none => (jsOrS (candidates.getD index "") (jsOrS (candidates.getD 0 "") ""), res.2)

/-- Handler `onFaviconError` (NewTab.tsx lines 447-459). State is the pair of the
attempt-counter map and the persisted store; the returned flag records
whether this call invoked `rememberFaviconFailure`.
`Math.max(0, candidates.length - 1)` is `candidates.length - 1` in `Nat`. -/
def onFaviconErrorStep (E : JsEnv) (now : Nat) (link : Link)
    (st : IdxMap × CacheMap) : (IdxMap × CacheMap) × Bool :=
  let candidates := getFaviconCandidates E link.url
  let cur := (idxGet st.1 link.id).getD 0
  let nextIndex := cur + 1
  let lastIndex := candidates.length - 1
  let fires := decide (nextIndex > lastIndex)
  let store := if fires then rememberFaviconFailure E now link.url "chain-exhausted" st.2 else st.2
  ((idxSet st.1 link.id (min nextIndex lastIndex), store), fires)

/-- Run of `k` consecutive `onFaviconError` calls for the same link. -/
def failuresRun (E : JsEnv) (now : Nat) (link : Link) :
    Nat → IdxMap × CacheMap → IdxMap × CacheMap
  | 0, st => st
  | k + 1, st => failuresRun E now link k (onFaviconErrorStep E now link st).1

/-- Number of `rememberFaviconFailure` invocations over `k` consecutive
`onFaviconError` calls. -/
def failureWriteCount (E : JsEnv) (now : Nat) (link : Link) :
    Nat → IdxMap × CacheMap → Nat
  | 0, _ => 0
  | k + 1, st =>
    (if (onFaviconErrorStep E now link st).2 then 1 else 0)
      + failureWriteCount E now link k (onFaviconErrorStep E now link st).1

/-- Attempt-counter map of a link after `j` consecutive failures against `n`
candidates (empty before the first failure, then clamped at `n - 1`). -/
def failIdxState (link : Link) (n j : Nat) : IdxMap :=
  if j = 0 then [] else [(link.id, min j (n - 1))]

/-- Store contents after `j` consecutive failures for domain `d` against `n`
candidates starting from the empty store. -/
def failStoreState (d : String) (now n j : Nat) : CacheMap :=
  if j < n then []
  else [(d, (⟨"", now, false, some "chain-exhausted"⟩ : CacheValue))]

/-! ## Store states reachable by the cache operations -/

inductive Reachable (E : JsEnv) : CacheMap → Prop where
  | empty : Reachable E []
  | remember (now : Nat) (url : Option String) (src provider : String)
      {s : CacheMap} :
      Reachable E s → Reachable E (rememberFavicon E now url src provider s)
  | rememberFailure (now : Nat) (url : Option String) (provider : String)
      {s : CacheMap} :
      Reachable E s → Reachable E (rememberFaviconFailure E now url provider s)
  | getStep (now : Nat) (url : Option String) {s : CacheMap} :
      Reachable E s → Reachable E (getCachedFavicon E now url s).2
  | negStep (now : Nat) (url : Option String) {s : CacheMap} :
      Reachable E s → Reachable E (isNegativeFaviconCached E now url s).2


/-! ## Concrete environments and runs used by witnesses and counterexamples -/

/-- An environment whose hostname parser is the identity, with provider mode
`google` (one candidate per url). -/
def idEnvGoogle : JsEnv := ⟨fun u => some u, fun s => s, some "google"⟩

/-- An identity-parser environment with no provider setting (mode `chain`). -/
def idEnv : JsEnv := ⟨fun u => some u, fun s => s, none⟩

/-- Folding a sequence of success reports `(url, timestamp)` into an initially
empty store (the capacity test scenario of the spec). -/
def rememberSeq (E : JsEnv) (inserts : List (Option String × Nat))
    (src p : String) : CacheMap :=
  inserts.foldl (fun acc q => rememberFavicon E q.2 q.1 src p acc) []

/-- The i-th pairwise distinct domain used by the capacity witness. -/
def aDomain (i : Nat) : String := String.mk (List.replicate (i + 1) 'a')

/-- A list of `MAX_ENTRIES + 1` distinct-domain success inserts with strictly
increasing timestamps. -/
def capacityInserts : List (Option String × Nat) :=
  (List.range (MAX_ENTRIES + 1)).map (fun i => (some (aDomain i), i))

/-! ## Association-list lemmas for the JS-object model -/

theorem objGet_objSet_self (s : CacheMap) (k : String) (v : CacheValue) :
    objGet (objSet s k v) k = some v := by
  induction s with
  | nil => simp [objSet, objGet]
  | cons p s ih =>
    by_cases h : p.1 = k
    · simp [objSet, objGet, h]
    · simp [objSet, objGet, h, ih]

theorem objGet_objSet_ne (s : CacheMap) (k k' : String) (v : CacheValue)
    (h : k' ≠ k) : objGet (objSet s k v) k' = objGet s k' := by
  have hk : ¬ (k = k') := fun hh => h (Eq.symm hh)
  induction s with
  | nil => simp [objSet, objGet, hk]
  | cons p s ih =>
    by_cases hp : p.1 = k
    · have hp' : ¬ (p.1 = k') := by rw [hp]; exact hk
      simp only [objSet, if_pos hp, objGet, if_neg hk, if_neg hp']
    · simp only [objSet, if_neg hp, objGet]
      by_cases hp' : p.1 = k'
      · rw [if_pos hp', if_pos hp']
      · rw [if_neg hp', if_neg hp']
        exact ih

theorem objGet_eq_none_iff (s : CacheMap) (k : String) :
    objGet s k = none ↔ k ∉ s.map Prod.fst := by
  induction s with
  | nil => simp [objGet]
  | cons p s ih =>
    by_cases h : p.1 = k
    · simp [objGet, h]
    · have h' : ¬ (k = p.1) := fun hh => h (Eq.symm hh)
      simp [objGet, h, ih, h']

theorem objGet_mem {s : CacheMap} {k : String} {v : CacheValue}
    (h : objGet s k = some v) : (k, v) ∈ s := by
  induction s with
  | nil => simp [objGet] at h
  | cons p s ih =>
    by_cases hp : p.1 = k
    · simp only [objGet, if_pos hp] at h
      have hpe : p = (k, v) := by
        obtain ⟨p1, p2⟩ := p
        injection h with h2
        simp only at hp h2
        rw [hp, h2]
      rw [hpe]
      exact List.mem_cons_self _ _
    · simp only [objGet, if_neg hp] at h
      exact List.mem_cons_of_mem _ (ih h)

theorem objSet_eq_append {s : CacheMap} {k : String} (v : CacheValue)
    (h : objGet s k = none) : objSet s k v = s ++ [(k, v)] := by
  induction s with
  | nil => simp [objSet]
  | cons p s ih =>
    by_cases hp : p.1 = k
    · simp [objGet, hp] at h
    · simp only [objGet, if_neg hp] at h
      simp [objSet, hp, ih h]

theorem length_objSet (s : CacheMap) (k : String) (v : CacheValue) :
    (objSet s k v).length =
      if objGet s k = none then s.length + 1 else s.length := by
  induction s with
  | nil => simp [objSet, objGet]
  | cons p s ih =>
    by_cases hp : p.1 = k
    · simp [objSet, objGet, hp]
    · by_cases h : objGet s k = none
      · simp [objSet, objGet, hp, h, ih]
      · simp [objSet, objGet, hp, h, ih]

theorem mem_objSet {s : CacheMap} {k : String} {v : CacheValue} {q : String × CacheValue}
    (h : q ∈ objSet s k v) : q ∈ s ∨ q = (k, v) := by
  induction s with
  | nil =>
    simp only [objSet, List.mem_singleton] at h
    right
    exact h
  | cons p s ih =>
    by_cases hp : p.1 = k
    · simp only [objSet, if_pos hp, List.mem_cons] at h
      rcases h with h | h
      · right; exact h
      · left; exact List.mem_cons_of_mem _ h
    · simp only [objSet, if_neg hp, List.mem_cons] at h
      rcases h with h | h
      · left; simp [h]
      · rcases ih h with h | h
        · left; exact List.mem_cons_of_mem _ h
        · right; exact h

theorem keys_objSet_sub {s : CacheMap} {k a : String} {v : CacheValue}
    (h : a ∈ (objSet s k v).map Prod.fst) : a = k ∨ a ∈ s.map Prod.fst := by
  rcases List.mem_map.1 h with ⟨q, hq, rfl⟩
  rcases mem_objSet hq with h | h
  · right; exact List.mem_map_of_mem _ h
  · left; simp [h]

theorem keysNodup_objSet {s : CacheMap} (k : String) (v : CacheValue)
    (h : (s.map Prod.fst).Nodup) : ((objSet s k v).map Prod.fst).Nodup := by
  induction s with
  | nil => simp [objSet]
  | cons p s ih =>
    simp only [List.map_cons, List.nodup_cons] at h
    by_cases hp : p.1 = k
    · simp only [objSet, if_pos hp, List.map_cons, List.nodup_cons]
      constructor
      · rw [← hp]; exact h.1
      · exact h.2
    · simp only [objSet, if_neg hp, List.map_cons, List.nodup_cons]
      constructor
      · intro hmem
        rcases keys_objSet_sub hmem with h1 | h1
        · exact hp h1
        · exact h.1 h1
      · exact ih h.2

theorem mem_objDelete {s : CacheMap} {k : String} {q : String × CacheValue}
    (h : q ∈ objDelete s k) : q ∈ s := by
  induction s with
  | nil => simp [objDelete] at h
  | cons p s ih =>
    by_cases hp : p.1 = k
    · simp only [objDelete, if_pos hp] at h
      exact List.mem_cons_of_mem _ (ih h)
    · simp only [objDelete, if_neg hp, List.mem_cons] at h
      rcases h with h | h
      · simp [h]
      · exact List.mem_cons_of_mem _ (ih h)

theorem length_objDelete_le (s : CacheMap) (k : String) :
    (objDelete s k).length ≤ s.length := by
  induction s with
  | nil => simp [objDelete]
  | cons p s ih =>
    by_cases hp : p.1 = k
    · simp only [objDelete, if_pos hp, List.length_cons]
      omega
    · simp only [objDelete, if_neg hp, List.length_cons]
      omega

theorem objGet_objDelete_ne (s : CacheMap) (k k' : String) (h : k' ≠ k) :
    objGet (objDelete s k) k' = objGet s k' := by
  induction s with
  | nil => simp [objDelete]
  | cons p s ih =>
    by_cases hp : p.1 = k
    · have hp' : ¬ (p.1 = k') := by
        rw [hp]; exact fun hh => h (Eq.symm hh)
      simp only [objDelete, if_pos hp, objGet, if_neg hp']
      exact ih
    · simp only [objDelete, if_neg hp, objGet]
      by_cases hp' : p.1 = k'
      · rw [if_pos hp', if_pos hp']
      · rw [if_neg hp', if_neg hp']
        exact ih

theorem keyCount_eq_zero {s : CacheMap} {k : String}
    (h : k ∉ s.map Prod.fst) : keyCount s k = 0 := by
  induction s with
  | nil => simp [keyCount]
  | cons p s ih =>
    simp only [List.map_cons, List.mem_cons] at h
    push_neg at h
    have hne : ¬ (p.1 = k) := fun hh => h.1 (Eq.symm hh)
    have ih' := ih h.2
    simp only [keyCount] at ih' ⊢
    rw [List.filter_cons, if_neg (by simp [hne])]
    exact ih'

theorem keyCount_eq_one_of_nodup {s : CacheMap} {k : String} {v : CacheValue}
    (hnd : (s.map Prod.fst).Nodup) (h : objGet s k = some v) :
    keyCount s k = 1 := by
  induction s with
  | nil => simp [objGet] at h
  | cons p s ih =>
    simp only [List.map_cons, List.nodup_cons] at hnd
    by_cases hp : p.1 = k
    · have hks : k ∉ s.map Prod.fst := by rw [← hp]; exact hnd.1
      have h0 := keyCount_eq_zero hks
      simp only [keyCount] at h0 ⊢
      rw [List.filter_cons, if_pos (by simp [hp])]
      simp [h0]
    · simp only [objGet, if_neg hp] at h
      have ih' := ih hnd.2 h
      simp only [keyCount] at ih' ⊢
      rw [List.filter_cons, if_neg (by simp [hp])]
      exact ih'

/-! ## pruneCache lemmas -/

theorem pruneCache_of_le {s : CacheMap} (h : s.length ≤ MAX_ENTRIES) :
    pruneCache s = s := by
  simp [pruneCache, h]

theorem length_insertionSortByAt (s : CacheMap) :
    (List.insertionSort byAt s).length = s.length :=
  (List.perm_insertionSort byAt s).length_eq

theorem length_pruneCache (s : CacheMap) :
    (pruneCache s).length = min s.length MAX_ENTRIES := by
  by_cases h : s.length ≤ MAX_ENTRIES
  · simp [pruneCache, h, Nat.min_eq_left h]
  · have h' : MAX_ENTRIES ≤ s.length := Nat.le_of_not_le h
    simp only [pruneCache, if_neg h, List.length_drop, length_insertionSortByAt]
    omega

theorem mem_pruneCache {s : CacheMap} {q : String × CacheValue}
    (h : q ∈ pruneCache s) : q ∈ s := by
  by_cases hl : s.length ≤ MAX_ENTRIES
  · rwa [pruneCache_of_le hl] at h
  · simp only [pruneCache, if_neg hl] at h
    exact (List.perm_insertionSort byAt s).subset
      (List.drop_subset _ _ h)

theorem keysNodup_pruneCache {s : CacheMap}
    (h : (s.map Prod.fst).Nodup) : ((pruneCache s).map Prod.fst).Nodup := by
  by_cases hl : s.length ≤ MAX_ENTRIES
  · rwa [pruneCache_of_le hl]
  · simp only [pruneCache, if_neg hl]
    have hperm : ((List.insertionSort byAt s).map Prod.fst).Nodup :=
      ((List.perm_insertionSort byAt s).map Prod.fst).symm.nodup h
    exact List.Nodup.sublist
      ((List.drop_sublist _ _).map Prod.fst) hperm

/-! ## Stability of the sort with respect to a maximal appended element -/

theorem orderedInsert_append_max {r : String × CacheValue → String × CacheValue → Prop}
    [DecidableRel r] (a x : String × CacheValue) (hax : r a x) :
    ∀ l : List (String × CacheValue),
      List.orderedInsert r a (l ++ [x]) = List.orderedInsert r a l ++ [x] := by
  intro l
  induction l with
  | nil => simp [List.orderedInsert, hax]
  | cons b l ih =>
    by_cases hab : r a b
    · simp [List.orderedInsert, hab]
    · simp [List.orderedInsert, hab, ih]

theorem insertionSort_append_max {r : String × CacheValue → String × CacheValue → Prop}
    [DecidableRel r] (x : String × CacheValue) :
    ∀ l : List (String × CacheValue), (∀ a ∈ l, r a x) →
      List.insertionSort r (l ++ [x]) = List.insertionSort r l ++ [x] := by
  intro l
  induction l with
  | nil =>
    intro _
    simp [List.insertionSort, List.orderedInsert]
  | cons b l ih =>
    intro hall
    have hb : r b x := hall b (List.mem_cons_self _ _)
    have hl : ∀ a ∈ l, r a x := fun a ha => hall a (List.mem_cons_of_mem _ ha)
    simp only [List.cons_append, List.insertionSort, List.append_eq]
    rw [ih hl]
    exact orderedInsert_append_max b x hb _

/-! ## String lemmas -/

theorem string_data_append (a b : String) : (a ++ b).data = a.data ++ b.data := rfl

theorem string_eq_empty_iff (a : String) : a = "" ↔ a.data = [] := by
  constructor
  · intro h
    rw [h]
  · intro h
    cases a
    cases h
    rfl

theorem append_ne_empty_left {a : String} (b : String) (h : a ≠ "") :
    a ++ b ≠ "" := by
  intro hc
  rw [string_eq_empty_iff, string_data_append, List.append_eq_nil] at hc
  exact h ((string_eq_empty_iff a).2 hc.1)

theorem https_lit_ne_empty : ("https://" : String) ≠ "" := by decide

/-! ## Candidate-list lemmas -/

theorem candidates_mem_ne_empty {E : JsEnv} {url : Option String} {c : String}
    (h : c ∈ getFaviconCandidates E url) : c ≠ "" := by
  match url with
  | none => simp [getFaviconCandidates] at h
  | some u =>
    by_cases hu : u = ""
    · rw [hu] at h
      simp [getFaviconCandidates] at h
    · by_cases hd : getDomain E (some u) = ""
      · simp [getFaviconCandidates, hu, hd] at h
      · simp only [getFaviconCandidates, if_neg hu, if_neg hd] at h
        have h1 : ("https://" ++ getDomain E (some u) ++ "/favicon.ico") ≠ "" :=
          append_ne_empty_left _ (append_ne_empty_left _ https_lit_ne_empty)
        have h2 : ("https://" ++ getDomain E (some u) ++ "/apple-touch-icon.png") ≠ "" :=
          append_ne_empty_left _ (append_ne_empty_left _ https_lit_ne_empty)
        have h3 : ("https://www.google.com/s2/favicons?domain="
            ++ E.encodeURIComponent (getDomain E (some u))
            ++ "&sz=" ++ toString DEFAULT_SIZE) ≠ "" :=
          append_ne_empty_left _ (append_ne_empty_left _
            (append_ne_empty_left _ (by decide)))
        have h4 : ("https://icons.duckduckgo.com/ip3/"
            ++ E.encodeURIComponent (getDomain E (some u)) ++ ".ico") ≠ "" :=
          append_ne_empty_left _ (append_ne_empty_left _ (by decide))
        have h5 : ("https://api.ray.so/favicon?url="
            ++ E.encodeURIComponent (getDomain E (some u))
            ++ "&size=" ++ toString DEFAULT_SIZE) ≠ "" :=
          append_ne_empty_left _ (append_ne_empty_left _
            (append_ne_empty_left _ (by decide)))
        have hmem : c ∈ ["https://" ++ getDomain E (some u) ++ "/favicon.ico",
            "https://" ++ getDomain E (some u) ++ "/apple-touch-icon.png",
            "https://www.google.com/s2/favicons?domain="
              ++ E.encodeURIComponent (getDomain E (some u))
              ++ "&sz=" ++ toString DEFAULT_SIZE,
            "https://icons.duckduckgo.com/ip3/"
              ++ E.encodeURIComponent (getDomain E (some u)) ++ ".ico",
            "https://api.ray.so/favicon?url="
              ++ E.encodeURIComponent (getDomain E (some u))
              ++ "&size=" ++ toString DEFAULT_SIZE] := by
          revert h
          rcases getProvider E.providerEnv with _ | _ | _ | _ | _ <;> intro h <;>
            simp only [List.mem_cons, List.mem_append, List.not_mem_nil,
              or_false] at h ⊢ <;> tauto
        simp only [List.mem_cons, List.not_mem_nil, or_false] at hmem
        rcases hmem with rfl | rfl | rfl | rfl | rfl
        · exact h1
        · exact h2
        · exact h3
        · exact h4
        · exact h5

theorem candidates_nil_iff (E : JsEnv) (url : Option String) :
    getFaviconCandidates E url = [] ↔ getDomain E url = "" := by
  match url with
  | none => simp [getFaviconCandidates, getDomain]
  | some u =>
    by_cases hu : u = ""
    · rw [hu]
      simp [getFaviconCandidates, getDomain]
    · by_cases hd : getDomain E (some u) = ""
      · simp [getFaviconCandidates, hu, hd]
      · simp only [getFaviconCandidates, if_neg hu, if_neg hd]
        constructor
        · intro h
          exfalso
          revert h
          rcases getProvider E.providerEnv with _ | _ | _ | _ | _ <;> intro h <;>
            simp at h
        · intro h
          exact absurd h hd

/-! ## Shape of the store after each operation -/

theorem getCachedFavicon_snd (E : JsEnv) (now : Nat) (url : Option String)
    (s : CacheMap) :
    (getCachedFavicon E now url s).2 = s ∨
      (getCachedFavicon E now url s).2 = objDelete s (getDomain E url) := by
  simp only [getCachedFavicon]
  by_cases hd : getDomain E url = ""
  · simp [hd]
  · rw [if_neg hd]
    rcases hg : objGet s (getDomain E url) with _ | e
    · simp
    · rcases he : isExpired now e with _ | _ <;> simp [he]

theorem isNegativeFaviconCached_snd (E : JsEnv) (now : Nat) (url : Option String)
    (s : CacheMap) :
    (isNegativeFaviconCached E now url s).2 = s ∨
      (isNegativeFaviconCached E now url s).2 = objDelete s (getDomain E url) := by
  simp only [isNegativeFaviconCached]
  by_cases hd : getDomain E url = ""
  · simp [hd]
  · rw [if_neg hd]
    rcases hg : objGet s (getDomain E url) with _ | e
    · simp
    · rcases he : isExpired now e with _ | _ <;> simp [he]

/-! ## Invariants of reachable stores -/

theorem reachable_length {E : JsEnv} {s : CacheMap} (h : Reachable E s) :
    s.length ≤ MAX_ENTRIES := by
  induction h with
  | empty => simp [MAX_ENTRIES]
  | remember now url src provider _ ih =>
    by_cases hc : getDomain E url = "" ∨ src = ""
    · simpa [rememberFavicon, hc] using ih
    · simp only [rememberFavicon, if_neg hc]
      rw [length_pruneCache]
      exact Nat.min_le_right _ _
  | rememberFailure now url provider _ ih =>
    by_cases hc : getDomain E url = ""
    · simpa [rememberFaviconFailure, hc] using ih
    · simp only [rememberFaviconFailure, if_neg hc]
      rw [length_pruneCache]
      exact Nat.min_le_right _ _
  | getStep now url _ ih =>
    rcases getCachedFavicon_snd E now url _ with h | h <;> rw [h]
    · exact ih
    · exact le_trans (length_objDelete_le _ _) ih
  | negStep now url _ ih =>
    rcases isNegativeFaviconCached_snd E now url _ with h | h <;> rw [h]
    · exact ih
    · exact le_trans (length_objDelete_le _ _) ih

theorem reachable_src_ok {E : JsEnv} {s : CacheMap} (h : Reachable E s) :
    ∀ q ∈ s, (q.2.ok = false → q.2.src = "") ∧ (q.2.ok = true → q.2.src ≠ "") := by
  induction h with
  | empty => simp
  | remember now url src provider _ ih =>
    intro q hq
    by_cases hc : getDomain E url = "" ∨ src = ""
    · rw [rememberFavicon, if_pos hc] at hq
      exact ih q hq
    · rw [rememberFavicon, if_neg hc] at hq
      rcases mem_objSet (mem_pruneCache hq) with hm | hm
      · exact ih q hm
      · push_neg at hc
        rw [hm]
        exact ⟨fun hok => by simp at hok, fun _ => hc.2⟩
  | rememberFailure now url provider _ ih =>
    intro q hq
    by_cases hc : getDomain E url = ""
    · rw [rememberFaviconFailure, if_pos hc] at hq
      exact ih q hq
    · rw [rememberFaviconFailure, if_neg hc] at hq
      rcases mem_objSet (mem_pruneCache hq) with hm | hm
      · exact ih q hm
      · rw [hm]
        exact ⟨fun _ => rfl, fun hok => by simp at hok⟩
  | getStep now url _ ih =>
    intro q hq
    rcases getCachedFavicon_snd E now url _ with h | h <;> rw [h] at hq
    · exact ih q hq
    · exact ih q (mem_objDelete hq)
  | negStep now url _ ih =>
    intro q hq
    rcases isNegativeFaviconCached_snd E now url _ with h | h <;> rw [h] at hq
    · exact ih q hq
    · exact ih q (mem_objDelete hq)

/-! ## The capacity scenario: MAX_ENTRIES + 1 fresh inserts -/

theorem rememberSeq_foldl_fresh (E : JsEnv) (src p : String) (hsrc : src ≠ "") :
    ∀ (ds : List (Option String × Nat)) (acc : CacheMap),
      (∀ q ∈ ds, getDomain E q.1 ≠ "") →
      ((acc.map Prod.fst) ++ ds.map (fun q => getDomain E q.1)).Nodup →
      acc.length + ds.length ≤ MAX_ENTRIES →
      ds.foldl (fun a q => rememberFavicon E q.2 q.1 src p a) acc
        = acc ++ ds.map (fun q => (getDomain E q.1, (⟨src, q.2, true, some p⟩ : CacheValue))) := by
  intro ds
  induction ds with
  | nil => intro acc _ _ _; simp
  | cons q ds ih =>
    intro acc hall hnd hlen
    have hd : getDomain E q.1 ≠ "" := hall q (List.mem_cons_self _ _)
    have hc : ¬ (getDomain E q.1 = "" ∨ src = "") := by
      push_neg
      exact ⟨hd, hsrc⟩
    have hdisj := (List.nodup_append.1 hnd).2.2
    have hfresh : getDomain E q.1 ∉ acc.map Prod.fst := by
      intro hmem
      exact hdisj hmem (by simp)
    have hget : objGet acc (getDomain E q.1) = none :=
      (objGet_eq_none_iff _ _).2 hfresh
    have hstep : rememberFavicon E q.2 q.1 src p acc
        = acc ++ [(getDomain E q.1, (⟨src, q.2, true, some p⟩ : CacheValue))] := by
      rw [rememberFavicon, if_neg hc, objSet_eq_append _ hget, pruneCache_of_le]
      simp only [List.length_append, List.length_singleton, List.length_cons, List.length_nil] at hlen ⊢
      omega
    rw [List.foldl_cons, hstep, ih]
    · simp
    · exact fun a ha => hall a (List.mem_cons_of_mem _ ha)
    · simp only [List.map_append, List.map_cons, List.map_nil] at hnd ⊢
      simpa [List.append_assoc] using hnd
    · simp only [List.length_append, List.length_singleton, List.length_cons, List.length_nil] at hlen ⊢
      omega

theorem rememberSeq_capacity (E : JsEnv) (inserts : List (Option String × Nat))
    (src p : String) (hsrc : src ≠ "")
    (hlen : inserts.length = MAX_ENTRIES + 1)
    (hnd : (inserts.map (fun q => getDomain E q.1)).Nodup)
    (hdom : ∀ q ∈ inserts, getDomain E q.1 ≠ "")
    (hat : List.Chain' (· < ·) (inserts.map Prod.snd)) :
    rememberSeq E inserts src p
      = (inserts.map (fun q =>
          (getDomain E q.1, (⟨src, q.2, true, some p⟩ : CacheValue)))).tail := by
  have hne : inserts ≠ [] := by
    intro h
    rw [h] at hlen
    simp [MAX_ENTRIES] at hlen
  set L := inserts.dropLast with hL
  set x := inserts.getLast hne with hx
  have hsplit : L ++ [x] = inserts := List.dropLast_append_getLast hne
  have hLlen : L.length = MAX_ENTRIES := by
    have := congrArg List.length hsplit
    simp only [List.length_append, List.length_singleton] at this
    omega
  have hallL : ∀ q ∈ L, getDomain E q.1 ≠ "" := by
    intro q hq
    exact hdom q (hsplit ▸ List.mem_append_left _ hq)
  have hndL : ((L.map (fun q => getDomain E q.1))
      ++ [getDomain E x.1]).Nodup := by
    have := hnd
    rw [← hsplit, List.map_append, List.map_cons, List.map_nil] at this
    exact this
  have hfoldL : L.foldl (fun a q => rememberFavicon E q.2 q.1 src p a) []
      = L.map (fun q => (getDomain E q.1, (⟨src, q.2, true, some p⟩ : CacheValue))) := by
    rw [rememberSeq_foldl_fresh E src p hsrc L [] hallL]
    · simp
    · simpa using (List.nodup_append.1 hndL).1
    · simp [hLlen]
  have hkeys : (L.map (fun q =>
      (getDomain E q.1, (⟨src, q.2, true, some p⟩ : CacheValue)))).map Prod.fst
      = L.map (fun q => getDomain E q.1) := by
    rw [List.map_map]
    rfl
  have hfreshx : getDomain E x.1 ∉ (L.map (fun q =>
      (getDomain E q.1, (⟨src, q.2, true, some p⟩ : CacheValue)))).map Prod.fst := by
    rw [hkeys]
    intro hmem
    exact (List.nodup_append.1 hndL).2.2 hmem (by simp)
  have hdx : ¬ (getDomain E x.1 = "" ∨ src = "") := by
    push_neg
    exact ⟨hdom x (hsplit ▸ List.mem_append_right _ (by simp)), hsrc⟩
  have hgetx : objGet (L.map (fun q =>
      (getDomain E q.1, (⟨src, q.2, true, some p⟩ : CacheValue)))) (getDomain E x.1) = none :=
    (objGet_eq_none_iff _ _).2 hfreshx
  have hentries : rememberSeq E inserts src p
      = pruneCache (inserts.map (fun q =>
          (getDomain E q.1, (⟨src, q.2, true, some p⟩ : CacheValue)))) := by
    rw [rememberSeq, ← hsplit, List.foldl_append, hfoldL]
    simp only [List.foldl_cons, List.foldl_nil]
    rw [rememberFavicon, if_neg hdx, objSet_eq_append _ hgetx]
    rw [List.map_append, List.map_cons, List.map_nil]
  have hsorted : List.Sorted byAt (inserts.map (fun q =>
      (getDomain E q.1, (⟨src, q.2, true, some p⟩ : CacheValue)))) := by
    have hpw : List.Pairwise (· < ·) (inserts.map Prod.snd) :=
      List.chain'_iff_pairwise.1 hat
    have hpw2 : List.Pairwise (fun a b : Option String × Nat => a.2 < b.2) inserts :=
      List.pairwise_map.1 hpw
    apply List.pairwise_map.2
    exact hpw2.imp (fun hab => Nat.le_of_lt hab)
  have hlenE : (inserts.map (fun q =>
      (getDomain E q.1, (⟨src, q.2, true, some p⟩ : CacheValue)))).length
      = MAX_ENTRIES + 1 := by
    simp [hlen]
  rw [hentries, pruneCache, if_neg (by rw [hlenE]; omega), hlenE,
    Nat.add_sub_cancel_left, hsorted.insertionSort_eq, ← List.drop_one]

/-! ## Facts about the concrete capacity-witness inserts -/

theorem aDomain_data (i : Nat) : (aDomain i).data = List.replicate (i + 1) 'a' := rfl

theorem aDomain_ne_empty (i : Nat) : aDomain i ≠ "" := by
  rw [Ne, string_eq_empty_iff, aDomain_data]
  simp

theorem stripWww_aDomain (i : Nat) : stripWww (aDomain i) = aDomain i := by
  rw [stripWww, if_neg]
  intro h
  have hw : 'w' ∈ ("www." : String).data := by decide
  rw [← h] at hw
  have hmem := List.take_subset 4 (aDomain i).data hw
  rw [aDomain_data] at hmem
  exact absurd (List.eq_of_mem_replicate hmem) (by decide)

theorem getDomain_idEnv_aDomain (i : Nat) :
    getDomain idEnv (some (aDomain i)) = aDomain i := by
  rw [getDomain, if_neg (aDomain_ne_empty i)]
  show stripWww (aDomain i) = aDomain i
  exact stripWww_aDomain i

theorem aDomain_injective : Function.Injective aDomain := by
  intro i j h
  have hlen := congrArg (fun t : String => t.data.length) h
  simp only [aDomain_data, List.length_replicate] at hlen
  omega

theorem capacityInserts_length : capacityInserts.length = MAX_ENTRIES + 1 := by
  simp [capacityInserts]

theorem capacityInserts_doms :
    capacityInserts.map (fun q => getDomain idEnv q.1)
      = (List.range (MAX_ENTRIES + 1)).map aDomain := by
  rw [capacityInserts, List.map_map]
  have hfun : ((fun q : Option String × Nat => getDomain idEnv q.1)
      ∘ (fun i => (some (aDomain i), i))) = aDomain :=
    funext fun i => getDomain_idEnv_aDomain i
  rw [hfun]

theorem capacityInserts_nodup :
    (capacityInserts.map (fun q => getDomain idEnv q.1)).Nodup := by
  rw [capacityInserts_doms]
  exact List.Nodup.map aDomain_injective (List.nodup_range _)

theorem capacityInserts_dom :
    ∀ q ∈ capacityInserts, getDomain idEnv q.1 ≠ "" := by
  intro q hq
  rw [capacityInserts] at hq
  rcases List.mem_map.1 hq with ⟨i, _, rfl⟩
  show getDomain idEnv (some (aDomain i)) ≠ ""
  rw [getDomain_idEnv_aDomain]
  exact aDomain_ne_empty i

theorem capacityInserts_chain :
    List.Chain' (· < ·) (capacityInserts.map Prod.snd) := by
  have hmap : capacityInserts.map Prod.snd = List.range (MAX_ENTRIES + 1) := by
    rw [capacityInserts, List.map_map]
    have hcomp : (Prod.snd ∘ fun i : Nat => ((some (aDomain i), i) : Option String × Nat)) = id := rfl
    rw [hcomp, List.map_id]
  rw [hmap]
  exact (List.pairwise_lt_range _).chain'

/-! ## Claims -/

/-- Claim C1 (counterexample): for an absent input url, `getFaviconCandidates`
returns the empty sequence, not a one-element sequence holding a local
placeholder address; in particular the candidate list of an absent url is
empty, refuting non-emptiness for all urls. -/
theorem c1_counterexample :
    getFaviconCandidates idEnv none = []
      ∧ (getFaviconCandidates idEnv none).length ≠ 1 := by
  constructor
  · rfl
  · decide

/-- Claim C1 (amended): for every environment and url, the candidate sequence
is empty exactly when the url is absent, empty, or yields no domain; no
placeholder element is ever produced, and the sequence is non-empty exactly
when a domain is derivable. -/
theorem c1_amended (E : JsEnv) (url : Option String) :
    getFaviconCandidates E url = [] ↔ getDomain E url = "" :=
  candidates_nil_iff E url

/-- Claim C3: every store reachable from the empty store by the cache
operations holds at most `MAX_ENTRIES` (500) entries; and folding
`MAX_ENTRIES + 1` success inserts for pairwise distinct non-empty domains with
strictly increasing timestamps into the empty store leaves exactly
`MAX_ENTRIES` entries, with the single oldest-by-`at` entry (the first
insert) evicted and every later domain still present. -/
theorem c3_capacity (E : JsEnv) :
    (∀ s, Reachable E s → s.length ≤ MAX_ENTRIES)
    ∧ (∀ (inserts : List (Option String × Nat)) (src p : String),
        src ≠ "" →
        inserts.length = MAX_ENTRIES + 1 →
        (inserts.map (fun q => getDomain E q.1)).Nodup →
        (∀ q ∈ inserts, getDomain E q.1 ≠ "") →
        List.Chain' (· < ·) (inserts.map Prod.snd) →
        (rememberSeq E inserts src p).length = MAX_ENTRIES
        ∧ (∀ q ∈ inserts.tail,
            objGet (rememberSeq E inserts src p) (getDomain E q.1) ≠ none)
        ∧ (∀ q0, inserts.head? = some q0 →
            objGet (rememberSeq E inserts src p) (getDomain E q0.1) = none)) := by
  constructor
  · intro s hs
    exact reachable_length hs
  · intro inserts src p hsrc hlen hnd hdom hat
    have hcap := rememberSeq_capacity E inserts src p hsrc hlen hnd hdom hat
    obtain ⟨q0, tail0, rfl⟩ : ∃ q0 t, inserts = q0 :: t := by
      cases inserts with
      | nil => simp [MAX_ENTRIES] at hlen
      | cons a t => exact ⟨a, t, rfl⟩
    rw [List.map_cons, List.tail_cons] at hcap
    have hkeys : (tail0.map (fun q =>
        (getDomain E q.1, (⟨src, q.2, true, some p⟩ : CacheValue)))).map Prod.fst
        = tail0.map (fun q => getDomain E q.1) := by
      rw [List.map_map]
      rfl
    refine ⟨?_, ?_, ?_⟩
    · rw [hcap]
      simp only [List.length_map]
      simp only [List.length_cons] at hlen
      omega
    · intro q hq hnone
      rw [List.tail_cons] at hq
      rw [hcap, objGet_eq_none_iff, hkeys] at hnone
      exact hnone (List.mem_map_of_mem _ hq)
    · intro q1 hq1
      simp only [List.head?_cons, Option.some_inj] at hq1
      rw [hcap, objGet_eq_none_iff, hkeys, ← hq1]
      simp only [List.map_cons, List.nodup_cons] at hnd
      exact hnd.1

set_option maxRecDepth 4000 in
/-- Witness for C3: the bound instantiated at the empty store, and the
capacity scenario instantiated at 501 concrete distinct domains with
timestamps 0..500, leaving exactly 500 entries. -/
theorem c3_capacity_witness :
    ([] : CacheMap).length ≤ MAX_ENTRIES
      ∧ (rememberSeq idEnv capacityInserts "s" "p").length = MAX_ENTRIES := by
  constructor
  · exact (c3_capacity idEnv).1 [] Reachable.empty
  · exact ((c3_capacity idEnv).2 capacityInserts "s" "p" (by decide)
      capacityInserts_length capacityInserts_nodup capacityInserts_dom
      capacityInserts_chain).1

/-- Claim C6: for a url with a derivable domain, under provider mode `chain`
the candidate sequence is exactly the two direct addresses (favicon.ico then
apple-touch-icon.png), then the google address, then the duckduckgo address,
then the raycast address, concatenated in that order. -/
theorem c6_chain_order (E : JsEnv) (url : Option String)
    (hp : getProvider E.providerEnv = FaviconProvider.chain)
    (hd : getDomain E url ≠ "") :
    getFaviconCandidates E url =
      ["https://" ++ getDomain E url ++ "/favicon.ico",
       "https://" ++ getDomain E url ++ "/apple-touch-icon.png"]
      ++ ["https://www.google.com/s2/favicons?domain="
            ++ E.encodeURIComponent (getDomain E url)
            ++ "&sz=" ++ toString DEFAULT_SIZE]
      ++ ["https://icons.duckduckgo.com/ip3/"
            ++ E.encodeURIComponent (getDomain E url) ++ ".ico"]
      ++ ["https://api.ray.so/favicon?url="
            ++ E.encodeURIComponent (getDomain E url)
            ++ "&size=" ++ toString DEFAULT_SIZE] := by
  match url with
  | none => simp [getDomain] at hd
  | some u =>
    by_cases hu : u = ""
    · rw [hu] at hd
      simp [getDomain] at hd
    · have hd' : getDomain E (some u) ≠ "" := hd
      simp only [getFaviconCandidates, if_neg hu, if_neg hd', hp]

/-- Witness for C6: the chain order at a concrete identity-parser
environment and url. -/
theorem c6_chain_order_witness :
    getFaviconCandidates idEnv (some "example.com") =
      ["https://" ++ getDomain idEnv (some "example.com") ++ "/favicon.ico",
       "https://" ++ getDomain idEnv (some "example.com") ++ "/apple-touch-icon.png"]
      ++ ["https://www.google.com/s2/favicons?domain="
            ++ idEnv.encodeURIComponent (getDomain idEnv (some "example.com"))
            ++ "&sz=" ++ toString DEFAULT_SIZE]
      ++ ["https://icons.duckduckgo.com/ip3/"
            ++ idEnv.encodeURIComponent (getDomain idEnv (some "example.com")) ++ ".ico"]
      ++ ["https://api.ray.so/favicon?url="
            ++ idEnv.encodeURIComponent (getDomain idEnv (some "example.com"))
            ++ "&size=" ++ toString DEFAULT_SIZE] :=
  c6_chain_order idEnv (some "example.com") (by decide) (by decide)

/-- Claim C7: in every store reachable from the empty store by the cache
operations, every entry with `ok = false` has an empty `src`. -/
theorem c7_negative_src_empty (E : JsEnv) (s : CacheMap) (h : Reachable E s) :
    ∀ q ∈ s, q.2.ok = false → q.2.src = "" :=
  fun q hq hok => (reachable_src_ok h q hq).1 hok

/-- Witness for C7: instantiated at the store reached by one failure report. -/
theorem c7_negative_src_empty_witness :
    ((("example.com", (⟨"", 5, false, some "x"⟩ : CacheValue)) : String × CacheValue)).2.src = "" :=
  c7_negative_src_empty idEnv
    (rememberFaviconFailure idEnv 5 (some "example.com") "x" [])
    (Reachable.rememberFailure 5 (some "example.com") "x" Reachable.empty)
    ("example.com", (⟨"", 5, false, some "x"⟩ : CacheValue))
    (by decide) rfl

/-! ## Expiry characterization -/

theorem isExpired_eq_true_iff (now : Nat) (e : CacheValue) :
    isExpired now e = true ↔
      (now : Int) - (e.«at» : Int)
        > (((if e.ok then SUCCESS_TTL_MS else FAILURE_TTL_MS) : Nat) : Int) := by
  simp [isExpired]

theorem isExpired_eq_false_iff (now : Nat) (e : CacheValue) :
    isExpired now e = false ↔
      (now : Int) - (e.«at» : Int)
        ≤ (((if e.ok then SUCCESS_TTL_MS else FAILURE_TTL_MS) : Nat) : Int) := by
  simp [isExpired]

/-- Claim C4: `getCachedFavicon` returns the cached `src` exactly when an
entry for the normalized domain exists, is not expired (`now - at ≤ TTL`,
with the TTL chosen by the `ok` flag), and has `ok = true`; a
present-but-negative or expired entry is reported absent, and an expired
entry is deleted from the store as a side effect of the read. -/
theorem c4_get_spec (E : JsEnv) (now : Nat) (url : Option String) (s : CacheMap) :
    ((getCachedFavicon E now url s).1 ≠ none ↔
      ∃ e, getDomain E url ≠ "" ∧ objGet s (getDomain E url) = some e
        ∧ (now : Int) - (e.«at» : Int)
            ≤ (((if e.ok then SUCCESS_TTL_MS else FAILURE_TTL_MS) : Nat) : Int)
        ∧ e.ok = true)
    ∧ (∀ e, getDomain E url ≠ "" → objGet s (getDomain E url) = some e →
        (now : Int) - (e.«at» : Int)
            ≤ (((if e.ok then SUCCESS_TTL_MS else FAILURE_TTL_MS) : Nat) : Int) →
        (e.ok = true → getCachedFavicon E now url s = (some e.src, s))
        ∧ (e.ok = false → getCachedFavicon E now url s = (none, s)))
    ∧ (∀ e, getDomain E url ≠ "" → objGet s (getDomain E url) = some e →
        (now : Int) - (e.«at» : Int)
            > (((if e.ok then SUCCESS_TTL_MS else FAILURE_TTL_MS) : Nat) : Int) →
        getCachedFavicon E now url s = (none, objDelete s (getDomain E url))) := by
  refine ⟨?_, ?_, ?_⟩
  · by_cases hd : getDomain E url = ""
    · simp [getCachedFavicon, hd]
    · rcases hg : objGet s (getDomain E url) with _ | e
      · simp [getCachedFavicon, hd, hg]
      · rcases he : isExpired now e with _ | _
        · have hle := (isExpired_eq_false_iff now e).1 he
          rcases hok : e.ok with _ | _
          · simp [getCachedFavicon, hd, hg, he, hok]
          · rw [hok] at hle
            simp only [if_true] at hle
            simp [getCachedFavicon, hd, hg, he, hok]
            omega
        · have hgt := (isExpired_eq_true_iff now e).1 he
          simp only [getCachedFavicon, if_neg hd, hg, he, if_true, ne_eq,
            not_true_eq_false, false_iff, not_exists]
          intro e' ⟨_, hge, hcond, _⟩
          rw [Option.some_inj] at hge
          subst hge
          omega
  · intro e hd hge hle
    have he : isExpired now e = false := (isExpired_eq_false_iff now e).2 hle
    constructor
    · intro hok
      simp [getCachedFavicon, hd, hge, he, hok]
    · intro hok
      simp [getCachedFavicon, hd, hge, he, hok]
  · intro e hd hge hgt
    have he : isExpired now e = true := (isExpired_eq_true_iff now e).2 hgt
    simp [getCachedFavicon, hd, hge, he]

/-- Witness for C4: a fresh positive entry is returned with the store
untouched; an entry older than the success TTL is reported absent and
deleted by the read. -/
theorem c4_get_spec_witness :
    getCachedFavicon idEnv 10 (some "example.com")
        [("example.com", (⟨"icon", 5, true, some "w"⟩ : CacheValue))]
      = (some "icon", [("example.com", (⟨"icon", 5, true, some "w"⟩ : CacheValue))])
    ∧ getCachedFavicon idEnv (SUCCESS_TTL_MS + 1) (some "example.com")
        [("example.com", (⟨"icon", 0, true, some "w"⟩ : CacheValue))]
      = (none, objDelete [("example.com", (⟨"icon", 0, true, some "w"⟩ : CacheValue))]
          (getDomain idEnv (some "example.com"))) := by
  constructor
  · exact ((c4_get_spec idEnv 10 (some "example.com")
      [("example.com", (⟨"icon", 5, true, some "w"⟩ : CacheValue))]).2.1
      ⟨"icon", 5, true, some "w"⟩ (by decide) (by decide) (by decide)).1 rfl
  · exact (c4_get_spec idEnv (SUCCESS_TTL_MS + 1) (some "example.com")
      [("example.com", (⟨"icon", 0, true, some "w"⟩ : CacheValue))]).2.2
      ⟨"icon", 0, true, some "w"⟩ (by decide) (by decide) (by decide)

/-- Claim C10: the read operations `getCachedFavicon` and
`isNegativeFaviconCached` change the store only by deleting the queried
domain's entry when that entry is expired; when the entry is absent or not
expired the store is unchanged, and entries of every other domain are
unchanged in all cases. -/
theorem c10_read_frame (E : JsEnv) (now : Nat) (url : Option String) (s : CacheMap) :
    ((∃ e, getDomain E url ≠ "" ∧ objGet s (getDomain E url) = some e
        ∧ isExpired now e = true) →
      (getCachedFavicon E now url s).2 = objDelete s (getDomain E url)
      ∧ (isNegativeFaviconCached E now url s).2 = objDelete s (getDomain E url))
    ∧ (¬ (∃ e, getDomain E url ≠ "" ∧ objGet s (getDomain E url) = some e
        ∧ isExpired now e = true) →
      (getCachedFavicon E now url s).2 = s
      ∧ (isNegativeFaviconCached E now url s).2 = s)
    ∧ (∀ k, k ≠ getDomain E url →
      objGet (getCachedFavicon E now url s).2 k = objGet s k
      ∧ objGet (isNegativeFaviconCached E now url s).2 k = objGet s k) := by
  refine ⟨?_, ?_, ?_⟩
  · rintro ⟨e, hd, hg, he⟩
    constructor
    · simp [getCachedFavicon, hd, hg, he]
    · simp [isNegativeFaviconCached, hd, hg, he]
  · intro hno
    by_cases hd : getDomain E url = ""
    · constructor
      · simp [getCachedFavicon, hd]
      · simp [isNegativeFaviconCached, hd]
    · rcases hg : objGet s (getDomain E url) with _ | e
      · constructor
        · simp [getCachedFavicon, hd, hg]
        · simp [isNegativeFaviconCached, hd, hg]
      · rcases he : isExpired now e with _ | _
        · constructor
          · simp [getCachedFavicon, hd, hg, he]
          · simp [isNegativeFaviconCached, hd, hg, he]
        · exact absurd ⟨e, hd, hg, he⟩ hno
  · intro k hk
    constructor
    · rcases getCachedFavicon_snd E now url s with h | h <;> rw [h]
      exact objGet_objDelete_ne s (getDomain E url) k hk
    · rcases isNegativeFaviconCached_snd E now url s with h | h <;> rw [h]
      exact objGet_objDelete_ne s (getDomain E url) k hk

/-- Witness for C10: the expired-entry case deletes exactly the queried
domain, and a different domain reads the same before and after. -/
theorem c10_read_frame_witness :
    ((getCachedFavicon idEnv (SUCCESS_TTL_MS + 1) (some "example.com")
        [("example.com", (⟨"icon", 0, true, some "w"⟩ : CacheValue))]).2
      = objDelete [("example.com", (⟨"icon", 0, true, some "w"⟩ : CacheValue))]
          (getDomain idEnv (some "example.com")))
    ∧ objGet (getCachedFavicon idEnv (SUCCESS_TTL_MS + 1) (some "example.com")
        [("example.com", (⟨"icon", 0, true, some "w"⟩ : CacheValue))]).2 "other.org"
      = objGet [("example.com", (⟨"icon", 0, true, some "w"⟩ : CacheValue))] "other.org" := by
  constructor
  · exact ((c10_read_frame idEnv (SUCCESS_TTL_MS + 1) (some "example.com")
      [("example.com", (⟨"icon", 0, true, some "w"⟩ : CacheValue))]).1
      ⟨⟨"icon", 0, true, some "w"⟩, by decide, by decide, by decide⟩).1
  · exact ((c10_read_frame idEnv (SUCCESS_TTL_MS + 1) (some "example.com")
      [("example.com", (⟨"icon", 0, true, some "w"⟩ : CacheValue))]).2.2
      "other.org" (by decide)).1

/-- Claim C9: loading the persisted store never throws: a missing blob or an
unparseable (malformed JSON) blob is treated as the empty store, so every
cache read operation on a corrupt store behaves exactly as on the empty
store. -/
theorem c9_corrupt_blob (parseJson : String → Option CacheMap) (E : JsEnv)
    (now : Nat) (url : Option String) :
    readCache parseJson none = []
    ∧ (∀ j, parseJson j = none → readCache parseJson (some j) = [])
    ∧ (∀ blob, (blob = none ∨ ∃ j, blob = some j ∧ parseJson j = none) →
        getCachedFavicon E now url (readCache parseJson blob)
          = getCachedFavicon E now url []
        ∧ isNegativeFaviconCached E now url (readCache parseJson blob)
          = isNegativeFaviconCached E now url []) := by
  have hsome : ∀ j, parseJson j = none → readCache parseJson (some j) = [] := by
    intro j hj
    by_cases hje : j = ""
    · simp [readCache, safeParse, hje]
    · simp [readCache, safeParse, hje, hj]
  refine ⟨rfl, hsome, ?_⟩
  intro blob hb
  have hempty : readCache parseJson blob = [] := by
    rcases hb with rfl | ⟨j, rfl, hj⟩
    · rfl
    · exact hsome j hj
  rw [hempty]
  exact ⟨rfl, rfl⟩

/-- Witness for C9: a concrete unparseable blob loads as the empty store and
a read on it equals the read on the empty store. -/
theorem c9_corrupt_blob_witness :
    readCache (fun _ => none) (some "corrupt") = []
    ∧ getCachedFavicon idEnv 0 (some "example.com")
        (readCache (fun _ => none) (some "corrupt"))
      = getCachedFavicon idEnv 0 (some "example.com") [] := by
  constructor
  · exact (c9_corrupt_blob (fun _ => none) idEnv 0 (some "example.com")).2.1
      "corrupt" rfl
  · exact ((c9_corrupt_blob (fun _ => none) idEnv 0 (some "example.com")).2.2
      (some "corrupt") (Or.inr ⟨"corrupt", rfl, rfl⟩)).1

/-! ## Resolution driver: what getFaviconSrc renders -/

theorem getCached_some_src {E : JsEnv} {now : Nat} {url : Option String}
    {s : CacheMap} {v : String}
    (h : (getCachedFavicon E now url s).1 = some v) :
    ∃ e, objGet s (getDomain E url) = some e ∧ e.ok = true ∧ v = e.src := by
  by_cases hd : getDomain E url = ""
  · simp [getCachedFavicon, hd] at h
  · rcases hg : objGet s (getDomain E url) with _ | e
    · simp [getCachedFavicon, hd, hg] at h
    · rcases he : isExpired now e with _ | _
      · rcases hok : e.ok with _ | _
        · simp [getCachedFavicon, hd, hg, he, hok] at h
        · simp [getCachedFavicon, hd, hg, he, hok] at h
          exact ⟨e, rfl, hok, h.symm⟩
      · simp [getCachedFavicon, hd, hg, he] at h

/-- Claim C5: against any reachable store, `getFaviconSrc` returns the cached
address when the cache read is present; otherwise it returns the candidate at
the link's current attempt index, falling back to the first candidate
whenever that index is out of range. -/
theorem c5_resolve_display (E : JsEnv) (now : Nat) (link : Link)
    (m : IdxMap) (s : CacheMap) (hs : Reachable E s) :
    (∀ v, (getCachedFavicon E now link.url s).1 = some v →
      (getFaviconSrc E now link m s).1 = v)
    ∧ ((getCachedFavicon E now link.url s).1 = none →
      (∀ h : (idxGet m link.id).getD 0 < (getFaviconCandidates E link.url).length,
        (getFaviconSrc E now link m s).1
          = (getFaviconCandidates E link.url).get
              ⟨(idxGet m link.id).getD 0, h⟩)
      ∧ ((getFaviconCandidates E link.url).length ≤ (idxGet m link.id).getD 0 →
        ∀ h0 : getFaviconCandidates E link.url ≠ [],
          (getFaviconSrc E now link m s).1
            = (getFaviconCandidates E link.url).head h0)) := by
  constructor
  · intro v hv
    obtain ⟨e, hg, hok, rfl⟩ := getCached_some_src hv
    have hne : e.src ≠ "" := (reachable_src_ok hs _ (objGet_mem hg)).2 hok
    simp [getFaviconSrc, hv, hne]
  · intro hv
    constructor
    · intro hlt
      have hmem := List.get_mem (getFaviconCandidates E link.url) _ hlt
      have hcval := candidates_mem_ne_empty hmem
      have hgd : (getFaviconCandidates E link.url).getD
          ((idxGet m link.id).getD 0) ""
          = (getFaviconCandidates E link.url).get
              ⟨(idxGet m link.id).getD 0, hlt⟩ := by
        rw [List.getD_eq_getElem _ _ hlt]
        rfl
      simp only [getFaviconSrc, hv, jsOrS, hgd]
      rw [if_neg hcval]
    · intro hge h0
      have hlen0 : 0 < (getFaviconCandidates E link.url).length :=
        List.length_pos.2 h0
      have hc0 := candidates_mem_ne_empty (List.head_mem h0)
      have hd0 : (getFaviconCandidates E link.url).getD 0 ""
          = (getFaviconCandidates E link.url).head h0 := by
        rw [List.getD_eq_getElem _ _ hlen0]
        exact List.get_mk_zero hlen0
      simp only [getFaviconSrc, hv, jsOrS]
      rw [List.getD_eq_default _ _ hge, hd0, if_pos rfl, if_neg hc0]

/-- Witness for C5: the cache-hit branch at a store reached by one success
report. -/
theorem c5_resolve_display_witness :
    (getFaviconSrc idEnv 11 ⟨"l1", some "example.com"⟩ []
      (rememberFavicon idEnv 10 (some "example.com") "icon" "tab" [])).1
      = "icon" :=
  (c5_resolve_display idEnv 11 ⟨"l1", some "example.com"⟩ []
    (rememberFavicon idEnv 10 (some "example.com") "icon" "tab" [])
    (Reachable.remember 10 (some "example.com") "icon" "tab" Reachable.empty)).1
    "icon" (by decide)

/-! ## The per-link exhaustion machine -/

theorem candidates_length_pos {E : JsEnv} {url : Option String}
    (hd : getDomain E url ≠ "") : 1 ≤ (getFaviconCandidates E url).length := by
  have hne : getFaviconCandidates E url ≠ [] :=
    fun h => hd ((candidates_nil_iff E url).1 h)
  have := List.length_pos.2 hne
  omega

theorem c2_step (E : JsEnv) (now : Nat) (link : Link)
    (hd : getDomain E link.url ≠ "") (j : Nat) :
    onFaviconErrorStep E now link
        (failIdxState link (getFaviconCandidates E link.url).length j,
         failStoreState (getDomain E link.url) now
           (getFaviconCandidates E link.url).length j)
      = ((failIdxState link (getFaviconCandidates E link.url).length (j + 1),
          failStoreState (getDomain E link.url) now
            (getFaviconCandidates E link.url).length (j + 1)),
         decide (j + 1 ≥ (getFaviconCandidates E link.url).length)) := by
  have hn : 1 ≤ (getFaviconCandidates E link.url).length := candidates_length_pos hd
  set n := (getFaviconCandidates E link.url).length with hnn
  set d := getDomain E link.url with hdd
  have hcur : (idxGet (failIdxState link n j) link.id).getD 0 = min j (n - 1) := by
    by_cases hj : j = 0
    · simp [failIdxState, hj, idxGet]
    · simp [failIdxState, hj, idxGet]
  simp only [onFaviconErrorStep, hcur]
  have hfires : decide (min j (n - 1) + 1 > n - 1) = decide (j + 1 ≥ n) := by
    rw [decide_eq_decide]
    omega
  rw [hfires]
  have hidx : idxSet (failIdxState link n j) link.id (min (min j (n - 1) + 1) (n - 1))
      = failIdxState link n (j + 1) := by
    by_cases hj : j = 0
    · simp [failIdxState, hj, idxSet]
    · simp [failIdxState, hj, idxSet]
      omega
  rw [hidx]
  by_cases hj1 : j + 1 ≥ n
  · rw [if_pos (by simpa using hj1)]
    have hstore : rememberFaviconFailure E now link.url "chain-exhausted"
        (failStoreState d now n j) = failStoreState d now n (j + 1) := by
      rw [rememberFaviconFailure, if_neg hd]
      by_cases hjn : j < n
      · rw [show failStoreState d now n j = [] from by simp [failStoreState, hjn]]
        rw [show objSet [] d (⟨"", now, false, some "chain-exhausted"⟩ : CacheValue)
            = [(d, (⟨"", now, false, some "chain-exhausted"⟩ : CacheValue))] from rfl]
        rw [pruneCache_of_le (by simp [MAX_ENTRIES])]
        have hj1n : ¬ (j + 1 < n) := by omega
        simp [failStoreState, hj1n]
      · rw [show failStoreState d now n j
            = [(d, (⟨"", now, false, some "chain-exhausted"⟩ : CacheValue))] from by
          simp [failStoreState, hjn]]
        rw [show objSet [(d, (⟨"", now, false, some "chain-exhausted"⟩ : CacheValue))]
              d (⟨"", now, false, some "chain-exhausted"⟩ : CacheValue)
            = [(d, (⟨"", now, false, some "chain-exhausted"⟩ : CacheValue))] from by
          simp [objSet]]
        rw [pruneCache_of_le (by simp [MAX_ENTRIES])]
        have hj1n : ¬ (j + 1 < n) := by omega
        simp [failStoreState, hj1n]
    rw [hstore]
  · rw [if_neg (by simpa using hj1)]
    have hstore : failStoreState d now n j = failStoreState d now n (j + 1) := by
      have hjn : j < n := by omega
      have hjn1 : j + 1 < n := by omega
      simp [failStoreState, hjn, hjn1]
    rw [hstore]

theorem c2_run (E : JsEnv) (now : Nat) (link : Link)
    (hd : getDomain E link.url ≠ "") :
    ∀ k j, failuresRun E now link k
        (failIdxState link (getFaviconCandidates E link.url).length j,
         failStoreState (getDomain E link.url) now
           (getFaviconCandidates E link.url).length j)
      = (failIdxState link (getFaviconCandidates E link.url).length (j + k),
         failStoreState (getDomain E link.url) now
           (getFaviconCandidates E link.url).length (j + k)) := by
  intro k
  induction k with
  | zero => intro j; simp [failuresRun]
  | succ k ih =>
    intro j
    rw [failuresRun, c2_step E now link hd j]
    have := ih (j + 1)
    rw [show j + 1 + k = j + (k + 1) from by omega] at this
    exact this

theorem c2_count (E : JsEnv) (now : Nat) (link : Link)
    (hd : getDomain E link.url ≠ "") :
    ∀ k j, failureWriteCount E now link k
        (failIdxState link (getFaviconCandidates E link.url).length j,
         failStoreState (getDomain E link.url) now
           (getFaviconCandidates E link.url).length j)
      = (j + k) - max j ((getFaviconCandidates E link.url).length - 1) := by
  have hn : 1 ≤ (getFaviconCandidates E link.url).length := candidates_length_pos hd
  intro k
  induction k with
  | zero => intro j; simp [failureWriteCount]
  | succ k ih =>
    intro j
    rw [failureWriteCount, c2_step E now link hd j]
    have hih := ih (j + 1)
    simp only at hih ⊢
    rw [hih]
    by_cases hj1 : j + 1 ≥ (getFaviconCandidates E link.url).length
    · rw [if_pos (by simpa using hj1)]
      omega
    · rw [if_neg (by simpa using hj1)]
      omega

/-- Claim C2 (counterexample): with exactly one candidate (provider mode
`google`), two consecutive `onFaviconError` calls with no intervening
success invoke `rememberFaviconFailure` twice, not exactly once: the
negative write is re-issued by every failure after exhaustion. -/
theorem c2_counterexample :
    failureWriteCount idEnvGoogle 0 ⟨"l1", some "example.com"⟩ 2 ([], []) = 2
    ∧ failureWriteCount idEnvGoogle 0 ⟨"l1", some "example.com"⟩ 2 ([], []) ≠ 1 := by
  constructor
  · decide
  · decide

/-- Claim C2 (amended): for a link whose url yields `n ≥ 1` candidates, a run
of `k` consecutive `onLoadFailure` calls with no intervening success invokes
`rememberFaviconFailure` exactly `k - (n - 1)` times: never before the n-th
failure, once at the n-th failure, and once more at every further failure
(not idempotent in invocation count); each invocation upserts the same domain
key, so the store holds no negative entry before exhaustion and exactly one
single negative entry from the n-th failure on. -/
theorem c2_amended (E : JsEnv) (now : Nat) (link : Link) (k : Nat)
    (hd : getDomain E link.url ≠ "") :
    failureWriteCount E now link k ([], [])
        = k - ((getFaviconCandidates E link.url).length - 1)
    ∧ (failuresRun E now link k ([], [])).2
        = (if k < (getFaviconCandidates E link.url).length then []
           else [(getDomain E link.url,
                  (⟨"", now, false, some "chain-exhausted"⟩ : CacheValue))]) := by
  have hn : 1 ≤ (getFaviconCandidates E link.url).length := candidates_length_pos hd
  have h0i : failIdxState link (getFaviconCandidates E link.url).length 0 = [] := by
    simp [failIdxState]
  have h0s : failStoreState (getDomain E link.url) now
      (getFaviconCandidates E link.url).length 0 = [] := by
    rw [failStoreState, if_pos (by omega)]
  constructor
  · have hcount := c2_count E now link hd k 0
    rw [h0i, h0s] at hcount
    rw [hcount]
    omega
  · have hrun := c2_run E now link hd k 0
    rw [h0i, h0s] at hrun
    rw [hrun]
    simp [failStoreState]

/-- Witness for C2 (amended): three failures against the single google
candidate write the negative entry three times and leave one negative entry. -/
theorem c2_amended_witness :
    failureWriteCount idEnvGoogle 7 ⟨"l1", some "example.com"⟩ 3 ([], [])
        = 3 - ((getFaviconCandidates idEnvGoogle (some "example.com")).length - 1)
    ∧ (failuresRun idEnvGoogle 7 ⟨"l1", some "example.com"⟩ 3 ([], [])).2
        = (if 3 < (getFaviconCandidates idEnvGoogle (some "example.com")).length then []
           else [(getDomain idEnvGoogle (some "example.com"),
                  (⟨"", 7, false, some "chain-exhausted"⟩ : CacheValue))]) :=
  c2_amended idEnvGoogle 7 ⟨"l1", some "example.com"⟩ 3 (by decide)

/-! ## Remembering the same domain twice -/

theorem objGet_append_right {s : CacheMap} {k : String}
    (h : objGet s k = none) (t : CacheMap) :
    objGet (s ++ t) k = objGet t k := by
  induction s with
  | nil => simp
  | cons p s ih =>
    by_cases hp : p.1 = k
    · simp [objGet, hp] at h
    · simp only [objGet, if_neg hp] at h
      simp only [List.cons_append, objGet, if_neg hp]
      exact ih h

/-- Claim C8: calling `rememberFavicon` twice in succession for the same url
and non-empty src (timestamps in order, against a JS-representable store
within capacity whose entries are no newer than the first write) leaves
exactly one entry for the url's normalized domain, and that entry carries
the later timestamp: the second call overwrites, it never duplicates. -/
theorem c8_remember_idempotent (E : JsEnv) (t1 t2 : Nat) (url : Option String)
    (src p : String) (s : CacheMap)
    (hd : getDomain E url ≠ "") (hsrc : src ≠ "")
    (hnd : (s.map Prod.fst).Nodup) (hlen : s.length ≤ MAX_ENTRIES)
    (hat : ∀ q ∈ s, q.2.«at» ≤ t1) (ht : t1 ≤ t2) :
    keyCount (rememberFavicon E t2 url src p (rememberFavicon E t1 url src p s))
        (getDomain E url) = 1
    ∧ objGet (rememberFavicon E t2 url src p (rememberFavicon E t1 url src p s))
        (getDomain E url) = some ⟨src, t2, true, some p⟩ := by
  have hc : ¬ (getDomain E url = "" ∨ src = "") := by
    push_neg
    exact ⟨hd, hsrc⟩
  have haux : ∃ s1, rememberFavicon E t1 url src p s = s1
      ∧ (s1.map Prod.fst).Nodup ∧ s1.length ≤ MAX_ENTRIES
      ∧ objGet s1 (getDomain E url)
          = some (⟨src, t1, true, some p⟩ : CacheValue) := by
    rcases hg : objGet s (getDomain E url) with _ | w
    · have hfresh : getDomain E url ∉ s.map Prod.fst :=
        (objGet_eq_none_iff _ _).1 hg
      have happ : objSet s (getDomain E url) (⟨src, t1, true, some p⟩ : CacheValue)
          = s ++ [(getDomain E url, (⟨src, t1, true, some p⟩ : CacheValue))] :=
        objSet_eq_append _ hg
      by_cases hfull : s.length + 1 ≤ MAX_ENTRIES
      · refine ⟨s ++ [(getDomain E url, (⟨src, t1, true, some p⟩ : CacheValue))],
          ?_, ?_, ?_, ?_⟩
        · rw [rememberFavicon, if_neg hc, happ, pruneCache_of_le]
          simp only [List.length_append, List.length_singleton]
          omega
        · rw [List.map_append]
          rw [List.nodup_append]
          exact ⟨hnd, List.nodup_singleton _, by
            intro a ha hmem
            simp only [List.map_cons, List.map_nil, List.mem_singleton] at hmem
            rw [hmem] at ha
            exact hfresh ha⟩
        · simp only [List.length_append, List.length_singleton]
          omega
        · rw [objGet_append_right hg]
          simp [objGet]
      · have hslen : s.length = MAX_ENTRIES := by omega
        have hsort : List.insertionSort byAt
            (s ++ [(getDomain E url, (⟨src, t1, true, some p⟩ : CacheValue))])
            = List.insertionSort byAt s
              ++ [(getDomain E url, (⟨src, t1, true, some p⟩ : CacheValue))] :=
          insertionSort_append_max _ s (fun a ha => hat a ha)
        have hlens : (List.insertionSort byAt s).length = s.length :=
          length_insertionSortByAt s
        have hlenapp : (s ++ [(getDomain E url,
            (⟨src, t1, true, some p⟩ : CacheValue))]).length = MAX_ENTRIES + 1 := by
          simp only [List.length_append, List.length_singleton]
          omega
        have hprune : rememberFavicon E t1 url src p s
            = (List.insertionSort byAt s).drop 1
              ++ [(getDomain E url, (⟨src, t1, true, some p⟩ : CacheValue))] := by
          rw [rememberFavicon, if_neg hc, happ, pruneCache,
            if_neg (by rw [hlenapp]; omega)]
          rw [hlenapp, Nat.add_sub_cancel_left, hsort,
            List.drop_append_of_le_length (by rw [hlens, hslen]; simp [MAX_ENTRIES])]
        have hsortnd : ((List.insertionSort byAt s).map Prod.fst).Nodup :=
          ((List.perm_insertionSort byAt s).map Prod.fst).symm.nodup hnd
        have hdropnd : (((List.insertionSort byAt s).drop 1).map Prod.fst).Nodup :=
          List.Nodup.sublist ((List.drop_sublist _ _).map Prod.fst) hsortnd
        have hfresh2 : getDomain E url
            ∉ ((List.insertionSort byAt s).drop 1).map Prod.fst := by
          intro hmem
          rcases List.mem_map.1 hmem with ⟨q, hq, hq1⟩
          have hqs : q ∈ s :=
            (List.perm_insertionSort byAt s).subset (List.drop_subset _ _ hq)
          exact hfresh (hq1 ▸ List.mem_map_of_mem Prod.fst hqs)
        refine ⟨_, hprune, ?_, ?_, ?_⟩
        · rw [List.map_append]
          rw [List.nodup_append]
          exact ⟨hdropnd, List.nodup_singleton _, by
            intro a ha hmem
            simp only [List.map_cons, List.map_nil, List.mem_singleton] at hmem
            rw [hmem] at ha
            exact hfresh2 ha⟩
        · simp only [List.length_append, List.length_singleton, List.length_drop,
            hlens, hslen]
          simp [MAX_ENTRIES]
        · rw [objGet_append_right ((objGet_eq_none_iff _ _).2 hfresh2)]
          simp [objGet]
    · have hlen2 : (objSet s (getDomain E url)
          (⟨src, t1, true, some p⟩ : CacheValue)).length = s.length := by
        rw [length_objSet, if_neg]
        simp [hg]
      refine ⟨objSet s (getDomain E url) (⟨src, t1, true, some p⟩ : CacheValue),
        ?_, keysNodup_objSet _ _ hnd, ?_, objGet_objSet_self _ _ _⟩
      · rw [rememberFavicon, if_neg hc, pruneCache_of_le]
        rw [hlen2]
        exact hlen
      · rw [hlen2]
        exact hlen
  obtain ⟨s1, hs1, hnd1, hlen1, hget1⟩ := haux
  rw [hs1]
  have hlen2 : (objSet s1 (getDomain E url)
      (⟨src, t2, true, some p⟩ : CacheValue)).length = s1.length := by
    rw [length_objSet, if_neg]
    simp [hget1]
  have hfinal : rememberFavicon E t2 url src p s1
      = objSet s1 (getDomain E url) (⟨src, t2, true, some p⟩ : CacheValue) := by
    rw [rememberFavicon, if_neg hc, pruneCache_of_le]
    rw [hlen2]
    exact hlen1
  rw [hfinal]
  exact ⟨keyCount_eq_one_of_nodup (keysNodup_objSet _ _ hnd1)
      (objGet_objSet_self _ _ _),
    objGet_objSet_self _ _ _⟩

/-- Witness for C8: two success reports for the same domain on the empty
store leave a single entry with the later timestamp. -/
theorem c8_remember_idempotent_witness :
    keyCount (rememberFavicon idEnv 2 (some "example.com") "icon" "w"
        (rememberFavicon idEnv 1 (some "example.com") "icon" "w" []))
      (getDomain idEnv (some "example.com")) = 1
    ∧ objGet (rememberFavicon idEnv 2 (some "example.com") "icon" "w"
        (rememberFavicon idEnv 1 (some "example.com") "icon" "w" []))
      (getDomain idEnv (some "example.com"))
      = some ⟨"icon", 2, true, some "w"⟩ :=
  c8_remember_idempotent idEnv 1 2 (some "example.com") "icon" "w" []
    (by decide) (by decide) (by decide) (by decide) (by simp) (by decide)

end BW
